import Mathlib

/-!
Verification development for the isauran/logger repository.

Shallow embedding of the handler pipeline (base, multi, sampling, context,
metrics, tracing, file) and the internal buffer pool, translated from the Go
sources.  Machine integers are modelled as Nat/Int with explicit reduction
modulo powers of two where overflow matters; time instants are modelled as an
abstract integer clock; `time.Time.Format` results are modelled by carrying
the already-rendered time string in the record.
-/

set_option autoImplicit false

namespace Logger

/-- slog levels (log/slog): debug = -4, info = 0, warn = 4, error = 8. -/
def LevelDebug : Int := -4

/-- slog info level. -/
def LevelInfo : Int := 0

/-- slog warn level. -/
def LevelWarn : Int := 4

/-- slog error level. -/
def LevelError : Int := 8

/-- A slog attribute; values are modelled by their rendered string
(`fmt.Sprint(attr.Value.Any())` / `attr.Value.String()`). -/
structure Attr where
  key : String
  val : String
  deriving DecidableEq, Repr

/-- A slog record.  `time` carries the already-rendered timestamp string
(the model of `r.Time.Format(h.opts.TimeFormat)`). -/
structure Record where
  time : String
  level : Int
  message : String
  attrs : List Attr
  deriving DecidableEq, Repr

/-- slog.Record.Clone: an independent structural copy of the record
(fresh backing storage for the attribute list). -/
def recordClone (r : Record) : Record :=
  { time := r.time, level := r.level, message := r.message, attrs := r.attrs }

/-- cloneRecord (context.go): rebuilds the record field by field and re-adds
every attribute; structurally it returns the same record value. -/
def cloneRecord (r : Record) : Record :=
  { time := r.time, level := r.level, message := r.message, attrs := r.attrs }

/-- slog.Level.String suffix: the empty string for 0, otherwise the signed
decimal rendering with an explicit plus sign (`%+d`). -/
def levelSuffix (v : Int) : String :=
  if v = 0 then "" else if 0 < v then "+" ++ toString v else toString v

/-- slog.Level.String: DEBUG/INFO/WARN/ERROR with a signed offset suffix. -/
def levelString (l : Int) : String :=
  if l < LevelInfo then "DEBUG" ++ levelSuffix (l - LevelDebug)
  else if l < LevelWarn then "INFO" ++ levelSuffix (l - LevelInfo)
  else if l < LevelError then "WARN" ++ levelSuffix (l - LevelWarn)
  else "ERROR" ++ levelSuffix (l - LevelError)

/-- handler.Options (options.go).  `level` is the resolved value of the
configured `slog.Leveler`; durations are integer nanoseconds; the
`ReplaceAttr` callback is not modelled (no claim mentions it). -/
structure Options where
  json : Bool
  level : Int
  timeFormat : String
  addSource : Bool
  bufferPool : Bool
  bufferSize : Int
  poolSize : Int
  samplingEnabled : Bool
  sampleInterval : Int
  sampleRate : Int
  fileEnabled : Bool
  filePath : String
  maxFileSize : Int
  maxAge : Int
  maxBackups : Int
  rotateEvery : Int
  metricsEnabled : Bool
  tracingEnabled : Bool
  deriving DecidableEq, Repr

/-- NewOptions (options.go): the documented defaults. -/
def newOptions : Options :=
  { json := false
    level := LevelInfo
    timeFormat := "2006-01-02T15:04:05Z07:00"
    addSource := true
    bufferPool := true
    bufferSize := 4096
    poolSize := 32
    samplingEnabled := false
    sampleInterval := 1000000000
    sampleRate := 10
    fileEnabled := false
    filePath := ""
    maxFileSize := 100
    maxAge := 7
    maxBackups := 5
    rotateEvery := 86400000000000
    metricsEnabled := false
    tracingEnabled := false }

/-- Options.Validate (options.go). -/
def validateOptions (o : Options) : Except String Unit :=
  if o.bufferPool ∧ (o.bufferSize ≤ 0 ∨ o.poolSize ≤ 0) then
    .error "invalid buffer pool configuration"
  else if o.samplingEnabled ∧ (o.sampleInterval ≤ 0 ∨ o.sampleRate ≤ 0) then
    .error "invalid sampling configuration"
  else if o.fileEnabled ∧ o.filePath = "" then
    .error "file path is required for file handler"
  else if o.fileEnabled ∧ o.maxFileSize ≤ 0 then
    .error "invalid max file size"
  else if o.fileEnabled ∧ o.maxAge ≤ 0 then
    .error "invalid max age"
  else if o.fileEnabled ∧ o.maxBackups ≤ 0 then
    .error "invalid max backups"
  else if o.fileEnabled ∧ o.rotateEvery ≤ 0 then
    .error "invalid rotate interval"
  else .ok ()

/-- BaseHandler (handler.go).  The output writer is modelled by the list of
write calls `baseHandle` produces; the buffer pool only affects byte-buffer
reuse, never the emitted bytes, so it is not part of the handler state. -/
structure BaseHandler where
  opts : Options
  attrs : List Attr
  groups : List String
  globalAttrs : List Attr
  globalGroups : List String
  deriving DecidableEq, Repr

/-- newBaseHandler (handler.go) with a non-nil options argument. -/
def newBaseHandler (opts : Options) : BaseHandler :=
  { opts := opts, attrs := [], groups := [], globalAttrs := [], globalGroups := [] }

/-- appendAttr (handler.go): skip the empty attribute, otherwise emit
`group.`-prefixes, `key=value` and a trailing space. -/
def appendAttr (buf : String) (groups : List String) (a : Attr) : String :=
  if a = { key := "", val := "" } then buf
  else
    (groups.foldl (fun b g => b ++ g ++ ".") buf) ++ a.key ++ "=" ++ a.val ++ " "

/-- BaseHandler.formatText (handler.go).  `caller` is the source location the
runtime lookup (`runtime.Callers`) would produce, if any. -/
def formatText (h : BaseHandler) (caller : Option String) (r : Record) : String :=
  let buf := r.time ++ " "
  let buf := buf ++ levelString r.level ++ " "
  let buf := if r.message = "" then buf else buf ++ r.message ++ " "
  let buf :=
    if h.opts.addSource then
      match caller with
      | some src => buf ++ "source=" ++ src ++ " "
      | none => buf
    else buf
  let buf := h.globalAttrs.foldl (fun b a => appendAttr b h.globalGroups a) buf
  let buf := r.attrs.foldl (fun b a => appendAttr b (h.globalGroups ++ h.groups) a) buf
  h.attrs.foldl (fun b a => appendAttr b (h.globalGroups ++ h.groups) a) buf

/-- JSON values produced by formatJSON: rendered strings and nested objects
(Go `map[string]interface{}` whose values here are strings or nested maps). -/
inductive JValue where
  | str (s : String)
  | obj (fields : List (String × JValue))

/-- Lookup in the object model of a Go map. -/
def objGet : List (String × JValue) → String → Option JValue
  | [], _ => none
  | (k2, v2) :: rest, k => if k2 = k then some v2 else objGet rest k

/-- Insert/replace in the object model.  Keys are kept sorted: a Go map is
unordered and `json.Marshal` sorts its keys, so a sorted association list
marshalled in order is observably the same map. -/
def objSet : List (String × JValue) → String → JValue → List (String × JValue)
  | [], k, v => [(k, v)]
  | (k2, v2) :: rest, k, v =>
    if k = k2 then (k, v) :: rest
    else if k < k2 then (k, v) :: (k2, v2) :: rest
    else (k2, v2) :: objSet rest k v

/-- addAttrToMap / addGroup (handler.go): walk the group path, reusing an
existing nested map and overwriting a non-map value with a fresh nested map,
then set the key in the innermost map.  The empty attribute is skipped. -/
def setNested : List (String × JValue) → List String → String → JValue → List (String × JValue)
  | m, [], k, v => objSet m k v
  | m, g :: gs, k, v =>
    let inner :=
      match objGet m g with
      | some (.obj o) => o
      | _ => []
    objSet m g (.obj (setNested inner gs k v))

/-- addAttrToMap (handler.go) entry point. -/
def addAttrToMap (m : List (String × JValue)) (groups : List String) (a : Attr) :
    List (String × JValue) :=
  if a = { key := "", val := "" } then m
  else setNested m groups a.key (.str a.val)

/-- The subset of Go JSON string escaping the emitted values exercise.
(Control characters and the HTML escapes are not modelled; no claim depends
on escaping.) -/
def jsonEscapeChar (c : Char) : String :=
  if c = '"' then "\\\""
  else if c = '\\' then "\\\\"
  else if c = '\n' then "\\n"
  else String.singleton c

/-- Escape a string for JSON output. -/
def jsonEscape (s : String) : String :=
  String.join (s.toList.map jsonEscapeChar)

mutual

/-- json.Marshal on the object model (keys already sorted by objSet). -/
def jsonMarshal : JValue → String
  | .str s => "\"" ++ jsonEscape s ++ "\""
  | .obj fields => "\x7b" ++ jsonMarshalFields fields ++ "\x7d"

/-- Comma-separated field list of a JSON object. -/
def jsonMarshalFields : List (String × JValue) → String
  | [] => ""
  | (k, v) :: rest =>
    "\"" ++ jsonEscape k ++ "\":" ++ jsonMarshal v ++
      (if rest.isEmpty then "" else ",") ++ jsonMarshalFields rest

end

/-- BaseHandler.formatJSON (handler.go): time, level, optional msg and
source, then global, record and handler attributes, marshalled with sorted
keys as `json.Marshal` does for maps. -/
def formatJSON (h : BaseHandler) (caller : Option String) (r : Record) : String :=
  let m : List (String × JValue) := []
  let m := objSet m "time" (.str r.time)
  let m := objSet m "level" (.str (levelString r.level))
  let m := if r.message = "" then m else objSet m "msg" (.str r.message)
  let m :=
    if h.opts.addSource then
      match caller with
      | some src => objSet m "source" (.str src)
      | none => m
    else m
  let m := h.globalAttrs.foldl (fun mm a => addAttrToMap mm h.globalGroups a) m
  let m := r.attrs.foldl (fun mm a => addAttrToMap mm (h.globalGroups ++ h.groups) a) m
  let m := h.attrs.foldl (fun mm a => addAttrToMap mm (h.globalGroups ++ h.groups) a) m
  jsonMarshal (.obj m)

/-- BaseHandler.Enabled (handler.go): `level >= h.opts.Level.Level()`. -/
def baseEnabled (h : BaseHandler) (level : Int) : Bool :=
  h.opts.level ≤ level

/-- The single line BaseHandler.Handle writes for an enabled record: the
configured format followed by the newline terminator. -/
def formatLine (h : BaseHandler) (caller : Option String) (r : Record) : String :=
  (if h.opts.json then formatJSON h caller r else formatText h caller r) ++ "\n"

/-- BaseHandler.Handle (handler.go) against an in-memory sink: returns the
list of Write calls made on the sink and the returned error.  A disabled
record returns nil without touching the sink; an enabled record issues
exactly one Write of the formatted line.  (The buffer pool branch only
changes where the bytes are accumulated, not what is written.) -/
def baseHandle (h : BaseHandler) (caller : Option String) (r : Record) :
    List String × Option String :=
  if baseEnabled h r.level then ([formatLine h caller r], none) else ([], none)

/-- Distinguishes WithGroup/WithAttrs results that return the receiver from
results that allocate a new handler value. -/
inductive WGReturn (α : Type) where
  | receiver
  | newInstance (h : α)
  deriving DecidableEq, Repr

/-- BaseHandler.WithGroup (handler.go): the empty name returns the receiver;
otherwise a new handler with the name appended to the group list. -/
def baseWithGroup (h : BaseHandler) (name : String) : WGReturn BaseHandler :=
  if name = "" then .receiver
  else .newInstance { h with groups := h.groups ++ [name] }

/-- BaseHandler.WithAttrs (handler.go): the empty list returns the receiver;
otherwise a new handler with the attributes appended. -/
def baseWithAttrs (h : BaseHandler) (attrs : List Attr) : WGReturn BaseHandler :=
  if attrs = [] then .receiver
  else .newInstance { h with attrs := h.attrs ++ attrs }

/-! ## MultiHandler (multi.go) -/

/-- MultiHandler.Handle (multi.go): the loop body, threading the last-seen
error.  A child handler is modelled as a function from the record it receives
to an optional error.  Returns the final error together with the list of
records passed to the children (in order) and the list of errors handed to
the optional error callback. -/
def multiHandleLoop (eh : Bool) (r : Record) :
    Option String → List Record → List String → List (Record → Option String) →
      Option String × List Record × List String
  | lastErr, inputs, cbs, [] => (lastErr, inputs, cbs)
  | lastErr, inputs, cbs, c :: cs =>
    let input := recordClone r
    match c input with
    | some e =>
      multiHandleLoop eh r (some e) (inputs ++ [input]) (cbs ++ if eh then [e] else []) cs
    | none => multiHandleLoop eh r lastErr (inputs ++ [input]) cbs cs

/-- MultiHandler.Handle (multi.go): iterate over all children, passing each
`r.Clone()`, recording errors without short-circuiting, and returning the
last error seen (nil when all children succeed).  `eh` states whether an
error callback is installed. -/
def multiHandle (children : List (Record → Option String)) (eh : Bool) (r : Record) :
    Option String × List Record × List String :=
  multiHandleLoop eh r none [] [] children

/-- MultiHandler.Enabled (multi.go): enabled iff some child is enabled. -/
def multiEnabled (childrenEnabled : List Bool) : Bool :=
  childrenEnabled.any id

/-- MultiHandler.WithGroup (multi.go): always allocates a new MultiHandler
wrapping the WithGroup result of each child, even for the empty group name. -/
def multiWithGroup {α : Type} (childWithGroup : α → String → α)
    (children : List α) (name : String) : WGReturn (List α) :=
  .newInstance (children.map (fun c => childWithGroup c name))

/-! ## Buffer pool (internal/buffer/pool.go) -/

/-- A byte buffer, reduced to its capacity and length. -/
structure Buf where
  capacity : Nat
  length : Nat
  deriving DecidableEq, Repr

/-- Pool state (internal/buffer/pool.go).  `items` models the contents of
the underlying sync.Pool as a stack (sync.Pool may additionally drop items
under memory pressure; no claim depends on retention). -/
structure PoolState where
  items : List Buf
  total : Int
  maxSize : Int
  maxBuffers : Int
  deriving DecidableEq, Repr

/-- NewPool (pool.go): non-positive limits fall back to the defaults
(DefaultMaxBufferSize = 65536, DefaultMaxBuffers = 1000). -/
def newPool (maxSize maxBuffers : Int) : PoolState :=
  { items := []
    total := 0
    maxSize := if maxSize ≤ 0 then 65536 else maxSize
    maxBuffers := if maxBuffers ≤ 0 then 1000 else maxBuffers }

/-- Pool.Get (pool.go): take a pooled buffer or allocate a fresh one of
capacity 4096 when the pool is empty, bump the counter, and reset the
length to zero keeping the capacity. -/
def poolGet (p : PoolState) : PoolState × Buf :=
  match p.items with
  | [] => ({ p with total := p.total + 1 }, { capacity := 4096, length := 0 })
  | b :: rest => ({ p with items := rest, total := p.total + 1 }, { b with length := 0 })

/-- Pool.Put (pool.go): nil is ignored; a buffer whose capacity exceeds
maxSize is discarded (counter decremented); when the counter exceeds
maxBuffers the buffer is discarded; otherwise the length is reset to zero
and the buffer is pooled.  Every branch returns normally. -/
def poolPut (p : PoolState) (buf : Option Buf) : PoolState :=
  match buf with
  | none => p
  | some b =>
    if p.maxSize < (b.capacity : Int) then { p with total := p.total - 1 }
    else if p.maxBuffers < p.total then { p with total := p.total - 1 }
    else { p with items := { b with length := 0 } :: p.items }

/-! ## SamplingHandler (sampling.go) -/

/-- FNV-64a offset basis (hash/fnv). -/
def fnvOffset : Nat := 14695981039346656037

/-- FNV-64a prime (hash/fnv). -/
def fnvPrime : Nat := 1099511628211

/-- One FNV-64a step: xor the byte in, multiply by the prime, reduce
modulo 2^64. -/
def fnvStep (h b : Nat) : Nat :=
  ((h ^^^ b) * fnvPrime) % (2 ^ 64)

/-- UTF-8 encoding of a single code point (what `[]byte(s)` iterates). -/
def utf8Bytes (c : Nat) : List Nat :=
  if c < 128 then [c]
  else if c < 2048 then [192 + c / 64, 128 + c % 64]
  else if c < 65536 then [224 + c / 4096, 128 + (c / 64) % 64, 128 + c % 64]
  else [240 + c / 262144, 128 + (c / 4096) % 64, 128 + (c / 64) % 64, 128 + c % 64]

/-- The UTF-8 bytes of a string, as naturals below 256. -/
def strBytes (s : String) : List Nat :=
  (s.toList.map (fun ch => utf8Bytes ch.toNat)).flatten

/-- hasher.Write on a string: fold the FNV step over its bytes. -/
def fnvWrite (h : Nat) (s : String) : Nat :=
  (strBytes s).foldl fnvStep h

/-- SamplingHandler.hashRecord (sampling.go): FNV-64a over the message then
the key and stringified value of each attribute. -/
def hashRecord (r : Record) : Nat :=
  r.attrs.foldl (fun acc a => fnvWrite (fnvWrite acc a.key) a.val) (fnvWrite fnvOffset r.message)

/-- Counter lookup: a missing key reads as zero (Go map zero value). -/
def ctrGet : List (Nat × Nat) → Nat → Nat
  | [], _ => 0
  | (k2, v2) :: rest, k => if k2 = k then v2 else ctrGet rest k

/-- Counter store. -/
def ctrSet (m : List (Nat × Nat)) (k v : Nat) : List (Nat × Nat) :=
  (k, v) :: m.filter (fun p => p.1 ≠ k)

/-- SamplingHandler state (sampling.go).  `sampleRate`, `threshold` and the
counters are uint32, modelled as naturals reduced modulo 2^32 where they are
incremented; times are integer nanoseconds on an abstract clock. -/
structure SamplingState where
  period : Int
  sampleRate : Nat
  threshold : Nat
  counters : List (Nat × Nat)
  lastCleanup : Int
  deriving DecidableEq, Repr

/-- NewSamplingHandler (sampling.go): threshold defaults to 1 (the
WithThreshold option overrides it); counters start empty. -/
def newSamplingHandler (period : Int) (sampleRate : Nat) : SamplingState :=
  { period := period, sampleRate := sampleRate, threshold := 1
    counters := [], lastCleanup := 0 }

/-- cleanupIfNeeded (sampling.go): wholesale reset of the counter map once
the configured period has elapsed since the last cleanup. -/
def cleanupIfNeeded (st : SamplingState) (now : Int) : SamplingState :=
  if st.period ≤ now - st.lastCleanup then
    { st with counters := [], lastCleanup := now }
  else st

/-- The record the sampling handler forwards when it emits: a clone of the
input annotated with the observed count (count+1) and the configured rate. -/
def emitWithMeta (r : Record) (count rate : Nat) : Record :=
  let r2 := cloneRecord r
  { r2 with attrs := r2.attrs ++
      [ { key := "sampling.count", val := toString (count + 1) },
        { key := "sampling.rate", val := toString rate } ] }

/-- SamplingHandler.Handle (sampling.go).  Returns `none` for the Go runtime
panic (modulo by zero when `sampleRate = 0` and the threshold branch did not
short-circuit); otherwise the new state and the record forwarded to the
wrapped handler (`none` when the record is dropped and nil returned). -/
def samplingHandle (st : SamplingState) (now : Int) (r : Record) :
    Option (SamplingState × Option Record) :=
  if LevelError ≤ r.level then some (st, some r)
  else
    let key := hashRecord r
    let st1 := cleanupIfNeeded st now
    let count := ctrGet st1.counters key
    let st2 := { st1 with counters := ctrSet st1.counters key ((count + 1) % (2 ^ 32)) }
    if count < st2.threshold then some (st2, some (emitWithMeta r count st2.sampleRate))
    else if st2.sampleRate = 0 then none
    else if count % st2.sampleRate = 0 then some (st2, some (emitWithMeta r count st2.sampleRate))
    else some (st2, none)

/-- Feed the same record `n` times through the sampling handler; collect the
emissions as (occurrence index, forwarded record) pairs. -/
def samplingRun (st : SamplingState) (now : Int) (r : Record) :
    Nat → Option (SamplingState × List (Nat × Record))
  | 0 => some (st, [])
  | n + 1 => do
    let (st1, ems) ← samplingRun st now r n
    let (st2, em) ← samplingHandle st1 now r
    some (st2, ems ++ (match em with | some r2 => [(n + 1, r2)] | none => []))

/-- SamplingHandler.WithGroup (sampling.go): always allocates a new
SamplingHandler (sharing the counter map) around the WithGroup result of the
inner handler, even for the empty name. -/
def samplingWithGroup {α : Type} (innerWithGroup : α → String → α)
    (st : SamplingState) (inner : α) (name : String) : WGReturn (SamplingState × α) :=
  .newInstance (st, innerWithGroup inner name)

/-- ContextHandler.WithGroup (context.go): always a new wrapper. -/
def contextWithGroup {α : Type} (innerWithGroup : α → String → α)
    (inner : α) (name : String) : WGReturn α :=
  .newInstance (innerWithGroup inner name)

/-- MetricsHandler.WithGroup (metrics.go): always a new wrapper. -/
def metricsWithGroup {α : Type} (innerWithGroup : α → String → α)
    (inner : α) (name : String) : WGReturn α :=
  .newInstance (innerWithGroup inner name)

/-- TracingHandler.WithGroup (tracing.go): always a new wrapper. -/
def tracingWithGroup {α : Type} (innerWithGroup : α → String → α)
    (inner : α) (name : String) : WGReturn α :=
  .newInstance (innerWithGroup inner name)

/-! ## FileHandler (core/handler/file.go)

The rotation-relevant filesystem is the family `path`, `path.1`, `path.2`,
…  It is modelled as an association list from the slot index to the
generation stamp of the file occupying it; slot 0 is the active file
(`path`), slot i ≥ 1 is backup `path.i`.  Generations are handed out by a
counter in the handler state, so "the file that was active just before the
k-th most recent rotation" is recoverable from the stamp. -/

/-- Slot lookup: `none` means the file does not exist. -/
def fsGet : List (Nat × Nat) → Nat → Option Nat
  | [], _ => none
  | (k2, v2) :: rest, k => if k2 = k then some v2 else fsGet rest k

/-- os.Remove on a slot (removing a missing file is a no-op here; the Go
loop only calls it when the file exists or stops on IsNotExist). -/
def fsDel (fs : List (Nat × Nat)) (k : Nat) : List (Nat × Nat) :=
  fs.filter (fun p => p.1 ≠ k)

/-- Create/overwrite a slot. -/
def fsSet (fs : List (Nat × Nat)) (k : Nat) (v : Nat) : List (Nat × Nat) :=
  (k, v) :: fsDel fs k

/-- os.Rename old→new: moves the file, overwriting the target; a missing
source leaves the filesystem unchanged (the IsNotExist error is ignored). -/
def fsRename (fs : List (Nat × Nat)) (oldK newK : Nat) : List (Nat × Nat) :=
  match fsGet fs oldK with
  | none => fs
  | some v => fsSet (fsDel fs oldK) newK v

/-- FileHandler.removeOldBackups (file.go): starting at index
`maxBackups+1`, remove consecutive backups until the first missing index. -/
def removeBackupsFrom (fs : List (Nat × Nat)) (i : Nat) : List (Nat × Nat) :=
  match h : fsGet fs i with
  | some _ => removeBackupsFrom (fsDel fs i) (i + 1)
  | none => fs
termination_by fs.length
decreasing_by
  rename_i v
  have hmem : ∀ (l : List (Nat × Nat)) (k w : Nat), fsGet l k = some w → (k, w) ∈ l := by
    intro l
    induction l with
    | nil => intro k w hw; simp [fsGet] at hw
    | cons p rest ih =>
      intro k w hw
      obtain ⟨a, b⟩ := p
      simp only [fsGet] at hw
      by_cases hak : a = k
      · rw [if_pos hak] at hw
        injection hw with hw
        subst hak
        subst hw
        exact List.mem_cons_self _ _
      · rw [if_neg hak] at hw
        exact List.mem_cons_of_mem _ (ih k w hw)
  exact List.length_filter_lt_length_iff_exists.mpr ⟨(i, v), hmem fs i v h, by simp⟩

/-- The backup shift loop of FileHandler.rotateFiles (file.go): for i from
`maxBackups-1` down to 1, rename backup i to i+1, ignoring missing files. -/
def shiftBackups (fs : List (Nat × Nat)) : Nat → List (Nat × Nat)
  | 0 => fs
  | i + 1 => shiftBackups (fsRename fs (i + 1) (i + 2)) i

/-- FileOptions (file.go).  MaxSize is megabytes as configured and bytes
after validation; Interval is integer nanoseconds. -/
structure FileOptions where
  path : String
  maxSize : Int
  maxAge : Int
  maxBackups : Int
  interval : Int
  deriving DecidableEq, Repr

/-- validateFileOptions (file.go): requires a path, converts MaxSize from
megabytes to bytes (default 100MB), defaults MaxAge to 7 days and MaxBackups
to 5.  Interval is left untouched.  (The MkdirAll side effect is assumed to
succeed; a nil options pointer is not representable here.) -/
def validateFileOptions (opts : FileOptions) : Except String FileOptions :=
  if opts.path = "" then .error "file path is required"
  else
    let o1 :=
      if 0 < opts.maxSize then { opts with maxSize := opts.maxSize * 1024 * 1024 }
      else { opts with maxSize := 100 * 1024 * 1024 }
    let o2 := if o1.maxAge ≤ 0 then { o1 with maxAge := 7 } else o1
    let o3 := if o2.maxBackups ≤ 0 then { o2 with maxBackups := 5 } else o2
    .ok o3

/-- FileHandler mutable state: the filesystem slots, the size counter, the
last-rotation instant, the generation counter for freshly opened active
files, and an instrumentation counter of completed rotations. -/
structure FileState where
  fs : List (Nat × Nat)
  size : Int
  lastRotate : Int
  gen : Nat
  rotations : Nat
  deriving DecidableEq, Repr

/-- FileHandler.shouldRotate (file.go): size threshold reached, or the
rotation interval elapsed. -/
def shouldRotate (opts : FileOptions) (st : FileState) (now : Int) : Bool :=
  (decide (0 < opts.maxSize) && decide (opts.maxSize ≤ st.size)) ||
    (decide (0 < opts.interval) && decide (opts.interval ≤ now - st.lastRotate))

/-- FileHandler.rotateFiles (file.go): re-check shouldRotate, remove backups
beyond maxBackups, shift backups up by one from maxBackups-1 down to 1, and
rename the active file to backup 1. -/
def rotateFiles (opts : FileOptions) (st : FileState) (now : Int) : List (Nat × Nat) :=
  if shouldRotate opts st now then
    fsRename
      (shiftBackups
        (removeBackupsFrom st.fs (opts.maxBackups + 1).toNat)
        (opts.maxBackups - 1).toNat)
      0 1
  else st.fs

/-- FileHandler.rotate (file.go): sync and close the active file, run
rotateFiles, open a fresh active file (a new generation in slot 0), reset
the size counter to zero and stamp the rotation time. -/
def rotate (opts : FileOptions) (st : FileState) (now : Int) : FileState :=
  { fs := fsSet (rotateFiles opts st now) 0 st.gen
    size := 0
    lastRotate := now
    gen := st.gen + 1
    rotations := st.rotations + 1 }

/-- FileHandler.Handle (file.go) for a record serialized to `n` bytes, with
the file open: write the bytes, add them to the size counter, and rotate
when shouldRotate reports the thresholds reached. -/
def handleWrite (opts : FileOptions) (st : FileState) (n : Int) (now : Int) : FileState :=
  let st1 := { st with size := st.size + n }
  if shouldRotate opts st1 now then rotate opts st1 now else st1

/-- N write-triggered rotations: each step writes maxSize bytes in one
Handle call, which pushes the size counter to the threshold and rotates. -/
def writeRotateN (opts : FileOptions) (now : Int) (st : FileState) : Nat → FileState
  | 0 => st
  | n + 1 => writeRotateN opts now (handleWrite opts st opts.maxSize now) n

/-- The initial handler state over a fresh log file: only the active file
exists (generation 0), the size counter starts at the file size, 0. -/
def initFileState : FileState :=
  { fs := [(0, 0)], size := 0, lastRotate := 0, gen := 1, rotations := 0 }

/-! ### Close / background-task signalling (file.go)

NewFileHandler starts the rotation worker goroutine only when
`opts.Interval > 0` (file.go line 68).  The worker, once started, returns
when stopChan is closed and closes doneChan via defer.  Close closes
stopChan and then blocks receiving on doneChan; that receive returns iff
doneChan is eventually closed. -/

/-- Whether NewFileHandler starts the rotation worker. -/
def rotationWorkerStarted (opts : FileOptions) : Bool :=
  0 < opts.interval

/-- Whether doneChan is eventually closed: exactly when the worker was
started, since only the deferred close in the worker touches doneChan. -/
def doneChanEventuallyClosed (opts : FileOptions) : Bool :=
  rotationWorkerStarted opts

/-- Whether FileHandler.Close terminates: `close(stopChan)` is immediate,
and the subsequent `<-doneChan` returns iff doneChan is eventually closed;
the remaining sync/close steps under the lock are finite. -/
def closeTerminates (opts : FileOptions) : Bool :=
  doneChanEventuallyClosed opts

/-! ### Attribute/group-derived views (file.go WithAttrs/WithGroup)

Each Go FileHandler struct owns its `size` field and its mutex as separate
memory cells; the `file`, `stopChan` and `doneChan` fields are pointers.
A view is therefore modelled by reference identifiers for the shared
pointers and a reference into a heap of size cells for its own `size`
field. -/

/-- A FileHandler as a set of resource references. -/
structure FileView where
  fileRef : Nat
  stopRef : Nat
  doneRef : Nat
  sizeRef : Nat
  deriving DecidableEq, Repr

/-- Heap of int64 size cells. -/
def heapGet : List (Nat × Int) → Nat → Int
  | [], _ => 0
  | (k2, v2) :: rest, k => if k2 = k then v2 else heapGet rest k

/-- Heap update. -/
def heapSet (hp : List (Nat × Int)) (k : Nat) (v : Int) : List (Nat × Int) :=
  (k, v) :: hp.filter (fun p => p.1 ≠ k)

/-- FileHandler.WithAttrs (file.go): a new struct sharing the file handle
and the stop/done channels, with a fresh mutex and its own `size` field
initialized by value from the current size of the receiver. -/
def fileWithAttrs (hp : List (Nat × Int)) (fresh : Nat) (h : FileView) :
    List (Nat × Int) × FileView :=
  (heapSet hp fresh (heapGet hp h.sizeRef),
   { fileRef := h.fileRef, stopRef := h.stopRef, doneRef := h.doneRef, sizeRef := fresh })

/-- FileHandler.WithGroup (file.go): identical resource behavior to
WithAttrs — shared file and channels, fresh mutex, size copied by value —
with no empty-name check, so it always allocates a new struct. -/
def fileWithGroup (hp : List (Nat × Int)) (fresh : Nat) (h : FileView) (_name : String) :
    List (Nat × Int) × WGReturn FileView :=
  (heapSet hp fresh (heapGet hp h.sizeRef),
   .newInstance { fileRef := h.fileRef, stopRef := h.stopRef, doneRef := h.doneRef, sizeRef := fresh })

/-- The size-counter side of FileHandler.Handle through a given view:
`h.size += int64(n)` updates the size cell owned by the view. -/
def fileWriteSize (hp : List (Nat × Int)) (h : FileView) (n : Int) : List (Nat × Int) :=
  heapSet hp h.sizeRef (heapGet hp h.sizeRef + n)

/-! ## Builder (builder.go) -/

/-- The shape of the handler chain Build constructs. -/
inductive HTree where
  | base (writer : Nat) (opts : Options)
  | file (opts : FileOptions)
  | multi (children : List HTree)
  | sampling (interval : Int) (rate : Nat) (inner : HTree)
  | metrics (inner : HTree)
  | tracing (inner : HTree)
  | ctx (inner : HTree)

/-- Builder state (builder.go): options, the writer list (NewBuilder seeds
os.Stdout as writer 0; WithWriter appends non-nil writers), and whether an
error callback was installed (it does not change the chain shape). -/
structure Builder where
  options : Options
  writers : List Nat
  errHandler : Bool

/-- NewBuilder (builder.go). -/
def newBuilder : Builder :=
  { options := newOptions, writers := [0], errHandler := false }

/-- Builder.Build (builder.go): validate, create one base handler per
writer, append a file handler when enabled, fold multiple sinks into a
multi-handler, then wrap — in order — sampling, metrics, tracing when
enabled, and finally the context handler outermost. -/
def build (b : Builder) : Except String HTree :=
  match validateOptions b.options with
  | .error e => .error ("invalid options: " ++ e)
  | .ok _ =>
    let fileRes : Except String (Option FileOptions) :=
      if b.options.fileEnabled then
        match validateFileOptions
            { path := b.options.filePath, maxSize := b.options.maxFileSize,
              maxAge := b.options.maxAge, maxBackups := b.options.maxBackups,
              interval := b.options.rotateEvery } with
        | .error e => .error ("create file handler: " ++ e)
        | .ok fo => .ok (some fo)
      else .ok none
    match fileRes with
    | .error e => .error e
    | .ok fileOpt =>
      match b.writers.map (fun w => HTree.base w b.options) ++
          (match fileOpt with | some fo => [HTree.file fo] | none => []) with
      | [] => .error "no handlers"
      | h0 :: rest =>
        let handler := if rest.isEmpty then h0 else HTree.multi (h0 :: rest)
        let handler :=
          if b.options.samplingEnabled then
            HTree.sampling b.options.sampleInterval
              ((b.options.sampleRate % (2 ^ 32 : Int)).toNat) handler
          else handler
        let handler := if b.options.metricsEnabled then HTree.metrics handler else handler
        let handler := if b.options.tracingEnabled then HTree.tracing handler else handler
        .ok (HTree.ctx handler)

/-- Sink handlers: base, file or multi — the innermost layer Build puts
under the cross-cutting wrappers. -/
def isSinkHandler : HTree → Bool
  | .base _ _ => true
  | .file _ => true
  | .multi _ => true
  | _ => false

/-- Leaf sinks: one writer (base) or the file handler. -/
def isLeafSink : HTree → Bool
  | .base _ _ => true
  | .file _ => true
  | _ => false

/-- A multi sink built by Build only contains base and file leaves. -/
def sinkLeavesOnly : HTree → Bool
  | .multi children => children.all isLeafSink
  | t => isLeafSink t

/-- Conditional wrapper layer. -/
def wrapIf (flag : Bool) (f : HTree → HTree) (t : HTree) : HTree :=
  if flag then f t else t

/-- The value of the MultiHandler lastErr variable after a run that produced
the listed errors in order, starting from a previous value: overwritten by
each error in turn. -/
def lastErrAfter (lastErr : Option String) : List String → Option String
  | [] => lastErr
  | e :: l => lastErrAfter (some e) l

/-- Canonical backup contents after n rotations with maxBackups = K,
restricted to indices ≥ 1: backup j holds the generation n - j (so backup 1
is the most recent) and exists exactly for 1 ≤ j ≤ min n K. -/
def origB (K n j : Nat) : Option Nat :=
  if 1 ≤ j ∧ j ≤ min n K then some (n - j) else none

/-- Canonical filesystem after n rotations: the active file (slot 0) holds
generation n, backups as in origB. -/
def canonGet (K n j : Nat) : Option Nat :=
  if j = 0 then some n else origB K n j

/-- Intermediate filesystem shape while the backup shift loop runs with
counter c (sources K-1 down to c+1 already renamed up by one): slots ≤ c are
untouched, slot c+1 has been vacated (except at the loop start c = K-1),
slots c+2..K hold the shifted-up originals. -/
def entrySpec (K n c j : Nat) : Option Nat :=
  if j = 0 then some n
  else if j ≤ c then origB K n j
  else if c + 2 ≤ j ∧ j ≤ K then origB K n (j - 1)
  else if j = c + 1 ∧ c = K - 1 then origB K n j
  else none

/-! ## Concrete demonstration values -/

/-- A one-cell size heap: the size cell of the original handler (ref 30) holds 0. -/
def demoHeap : List (Nat × Int) := [(30, 0)]

/-- A FileHandler view: file descriptor 10, stop channel 20, done channel 21,
own size cell 30. -/
def demoView : FileView := { fileRef := 10, stopRef := 20, doneRef := 21, sizeRef := 30 }

/-- Byte-valued FileOptions as validateFileOptions would produce them for a
1MB limit with no rotation interval. -/
def fileOptsDemo : FileOptions :=
  { path := "app.log", maxSize := 1048576, maxAge := 7, maxBackups := 5, interval := 0 }

/-- A file handler state 6 bytes below the 1MB threshold. -/
def fileStDemo : FileState :=
  { fs := [(0, 0)], size := 1048570, lastRotate := 0, gen := 1, rotations := 0 }

/-! ## Helper lemmas -/

/-- Deleting key `k` leaves lookups at other keys unchanged. -/
theorem fsGet_fsDel_ne {fs : List (Nat × Nat)} {k j : Nat} (h : j ≠ k) :
    fsGet (fsDel fs k) j = fsGet fs j := by
  induction fs with
  | nil => rfl
  | cons p rest ih =>
    obtain ⟨a, b⟩ := p
    simp only [fsDel, List.filter_cons] at ih ⊢
    by_cases hak : a = k
    · subst hak
      rw [if_neg (by simp)]
      have haj : ¬ a = j := fun hj => h hj.symm
      simp only [fsGet, if_neg haj]
      exact ih
    · rw [if_pos (by simpa using hak)]
      simp only [fsGet]
      by_cases haj : a = j
      · rw [if_pos haj, if_pos haj]
      · rw [if_neg haj, if_neg haj]
        exact ih

/-- Deleting key `k` removes it. -/
theorem fsGet_fsDel_self (fs : List (Nat × Nat)) (k : Nat) :
    fsGet (fsDel fs k) k = none := by
  induction fs with
  | nil => rfl
  | cons p rest ih =>
    obtain ⟨a, b⟩ := p
    simp only [fsDel, List.filter_cons] at ih ⊢
    by_cases hak : a = k
    · subst hak
      rw [if_neg (by simp)]
      exact ih
    · rw [if_pos (by simpa using hak)]
      simp only [fsGet, if_neg hak]
      exact ih

/-- Lookup after a store. -/
theorem fsGet_fsSet (fs : List (Nat × Nat)) (k v j : Nat) :
    fsGet (fsSet fs k v) j = if k = j then some v else fsGet fs j := by
  by_cases hkj : k = j
  · simp [fsSet, fsGet, hkj]
  · rw [if_neg hkj]
    have : j ≠ k := fun hj => hkj hj.symm
    simp only [fsSet, fsGet, if_neg hkj]
    exact fsGet_fsDel_ne this

/-- Lookup after a rename, in terms of the presence of the source. -/
theorem fsGet_fsRename (fs : List (Nat × Nat)) (a b j : Nat) :
    fsGet (fsRename fs a b) j =
      match fsGet fs a with
      | none => fsGet fs j
      | some v => if b = j then some v else if j = a then none else fsGet fs j := by
  cases ha : fsGet fs a with
  | none => simp [fsRename, ha]
  | some v =>
    simp only [fsRename, ha]
    rw [fsGet_fsSet]
    by_cases hbj : b = j
    · simp [hbj]
    · rw [if_neg hbj, if_neg hbj]
      by_cases hja : j = a
      · subst hja
        simp [fsGet_fsDel_self]
      · simp [if_neg hja, fsGet_fsDel_ne hja]

/-- removeBackupsFrom is the identity when the starting index is absent. -/
theorem removeBackupsFrom_absent {fs : List (Nat × Nat)} {i : Nat}
    (h : fsGet fs i = none) : removeBackupsFrom fs i = fs := by
  unfold removeBackupsFrom
  split
  · rename_i v hv
    rw [h] at hv
    exact absurd hv (by simp)
  · rfl

/-- heap lookup after an update. -/
theorem heapGet_heapSet (hp : List (Nat × Int)) (k j : Nat) (v : Int) :
    heapGet (heapSet hp k v) j = if k = j then v else heapGet hp j := by
  by_cases hkj : k = j
  · simp [heapSet, heapGet, hkj]
  · rw [if_neg hkj]
    simp only [heapSet, heapGet, if_neg hkj]
    induction hp with
    | nil => rfl
    | cons p rest ih =>
      obtain ⟨a, b⟩ := p
      simp only [List.filter_cons]
      by_cases hak : a = k
      · subst hak
        rw [if_neg (by simp)]
        simp only [heapGet, if_neg hkj]
        exact ih
      · rw [if_pos (by simpa using hak)]
        simp only [heapGet]
        by_cases haj : a = j
        · rw [if_pos haj, if_pos haj]
        · rw [if_neg haj, if_neg haj]
          exact ih

/-- At the start of the shift loop (counter K-1) nothing has moved. -/
theorem entrySpec_start (K n : Nat) (hK : 1 ≤ K) (j : Nat) :
    entrySpec K n (K - 1) j = canonGet K n j := by
  simp only [entrySpec, canonGet, origB]
  split_ifs <;> try rfl
  all_goals simp_all only [and_true, true_and, not_and, not_le, not_lt]
  all_goals omega

/-- Processing source c+1 does not concern slots other than c+1 and c+2. -/
theorem entrySpec_irrel (K n c j : Nat) (hK2 : c + 2 ≤ K)
    (h1 : j ≠ c + 1) (h2 : j ≠ c + 2) :
    entrySpec K n (c + 1) j = entrySpec K n c j := by
  simp only [entrySpec, origB]
  split_ifs <;> try rfl
  all_goals simp_all only [and_true, true_and, not_and, not_le, not_lt]
  all_goals omega

/-- Running the backup shift loop from counter i transforms the
intermediate shape at i into the fully shifted shape (counter 0). -/
theorem shiftBackups_spec (K n : Nat) (hK : 1 ≤ K) :
    ∀ (i : Nat), i + 1 ≤ K →
      ∀ fs : List (Nat × Nat), (∀ j, fsGet fs j = entrySpec K n i j) →
        ∀ j, fsGet (shiftBackups fs i) j = entrySpec K n 0 j := by
  intro i
  induction i with
  | zero => exact fun _ fs hfs j => hfs j
  | succ c ih =>
    intro hle fs hfs j
    show fsGet (shiftBackups (fsRename fs (c + 1) (c + 2)) c) j = _
    apply ih (by omega) _ _ j
    intro j2
    rw [fsGet_fsRename]
    have hsrc : fsGet fs (c + 1) = origB K n (c + 1) := by
      rw [hfs (c + 1)]
      simp only [entrySpec]
      rw [if_neg (by omega), if_pos (by omega)]
    have hRvac : entrySpec K n c (c + 1) = none := by
      simp only [entrySpec]
      rw [if_neg (by omega), if_neg (by omega), if_neg (by omega), if_neg (by omega)]
    have hRtarget : entrySpec K n c (c + 2) = origB K n (c + 1) := by
      simp only [entrySpec]
      rw [if_neg (by omega), if_neg (by omega), if_pos (by omega)]
      rfl
    cases hB : origB K n (c + 1) with
    | some v =>
      rw [hsrc, hB]
      have hcond : 1 ≤ c + 1 ∧ c + 1 ≤ min n K ∧ v = n - (c + 1) := by
        by_cases hc : 1 ≤ c + 1 ∧ c + 1 ≤ min n K
        · refine ⟨hc.1, hc.2, ?_⟩
          simp only [origB, if_pos hc] at hB
          injection hB with hB
          exact hB.symm
        · simp only [origB, if_neg hc] at hB
          cases hB
      show (if c + 2 = j2 then some v else if j2 = c + 1 then none else fsGet fs j2) =
        entrySpec K n c j2
      by_cases hj2 : c + 2 = j2
      · rw [if_pos hj2]
        subst hj2
        rw [hRtarget]
        simp only [origB]
        rw [if_pos (by omega)]
        simp only [Option.some.injEq]
        omega
      · rw [if_neg hj2]
        by_cases hj1 : j2 = c + 1
        · rw [if_pos hj1]
          subst hj1
          rw [hRvac]
        · rw [if_neg hj1, hfs j2]
          exact entrySpec_irrel K n c j2 hle hj1 (fun h => hj2 h.symm)
    | none =>
      rw [hsrc, hB]
      have hcond : ¬ (1 ≤ c + 1 ∧ c + 1 ≤ min n K) := by
        by_cases hc : 1 ≤ c + 1 ∧ c + 1 ≤ min n K
        · simp only [origB, if_pos hc] at hB
          cases hB
        · exact hc
      show fsGet fs j2 = entrySpec K n c j2
      rw [hfs j2]
      by_cases hj1 : j2 = c + 1
      · subst hj1
        rw [hRvac]
        simp only [entrySpec]
        rw [if_neg (by omega), if_pos (by omega)]
        simp only [origB]
        rw [if_neg hcond]
      · by_cases hj2 : j2 = c + 2
        · subst hj2
          rw [hRtarget]
          have hLnone : entrySpec K n (c + 1) (c + 2) = none := by
            simp only [entrySpec]
            rw [if_neg (by omega), if_neg (by omega), if_neg (by omega)]
            by_cases hck : c + 1 = K - 1
            · rw [if_pos ⟨trivial, hck⟩]
              simp only [origB]
              rw [if_neg (by omega)]
            · rw [if_neg (by simp only [not_and]; intro _; exact hck)]
          rw [hLnone]
          simp only [origB]
          rw [if_neg hcond]
        · exact entrySpec_irrel K n c j2 hle hj1 hj2

/-- After the shift and the active-file rename, slots from 2 on already
agree with the canonical filesystem of the next rotation count. -/
theorem entrySpec_final (K n j : Nat) (hj : 2 ≤ j) :
    entrySpec K n 0 j = canonGet K (n + 1) j := by
  simp only [entrySpec, canonGet, origB]
  split_ifs <;> try rfl
  all_goals simp_all only [and_true, true_and, not_and, not_le, not_lt]
  all_goals try omega
  all_goals simp only [Option.some.injEq]
  all_goals omega

/-- One triggered rotation on the canonical filesystem: the backups shift
up (dropping the oldest when full), the previously active file becomes
backup 1, and a fresh generation opens as the active file. -/
theorem rotate_canon (opts : FileOptions) (st : FileState) (now : Int) (K n : Nat)
    (hK : opts.maxBackups = (K : Int)) (hK1 : 1 ≤ K)
    (hsr : shouldRotate opts st now = true)
    (hfs : ∀ j, fsGet st.fs j = canonGet K n j) (hgen : st.gen = n + 1) :
    (∀ j, fsGet (rotate opts st now).fs j = canonGet K (n + 1) j) ∧
    (rotate opts st now).size = 0 ∧ (rotate opts st now).gen = n + 2 ∧
    (rotate opts st now).rotations = st.rotations + 1 := by
  have hKp1 : (opts.maxBackups + 1).toNat = K + 1 := by omega
  have hKm1 : (opts.maxBackups - 1).toNat = K - 1 := by omega
  have hrm : removeBackupsFrom st.fs (K + 1) = st.fs := by
    apply removeBackupsFrom_absent
    rw [hfs (K + 1)]
    simp only [canonGet, origB]
    rw [if_neg (by omega), if_neg (by omega)]
  have hrf : rotateFiles opts st now =
      fsRename (shiftBackups st.fs (K - 1)) 0 1 := by
    simp only [rotateFiles, hsr, if_true, hKp1, hKm1, hrm]
  have hstart : ∀ j, fsGet st.fs j = entrySpec K n (K - 1) j := by
    intro j
    rw [hfs j, ← entrySpec_start K n hK1 j]
  have hshift : ∀ j, fsGet (shiftBackups st.fs (K - 1)) j = entrySpec K n 0 j :=
    shiftBackups_spec K n hK1 (K - 1) (by omega) st.fs hstart
  have hs0 : fsGet (shiftBackups st.fs (K - 1)) 0 = some n := by
    rw [hshift 0]
    simp [entrySpec]
  refine ⟨?_, rfl, by show st.gen + 1 = n + 2; omega, rfl⟩
  intro j
  show fsGet (fsSet (rotateFiles opts st now) 0 st.gen) j = _
  rw [fsGet_fsSet]
  by_cases hj0 : 0 = j
  · rw [if_pos hj0, ← hj0, hgen]
    simp [canonGet]
  · rw [if_neg hj0, hrf, fsGet_fsRename, hs0]
    show (if 1 = j then some n
          else if j = 0 then none
          else fsGet (shiftBackups st.fs (K - 1)) j) = canonGet K (n + 1) j
    by_cases hj1 : 1 = j
    · rw [if_pos hj1, ← hj1]
      simp only [canonGet, origB]
      rw [if_neg (by omega), if_pos (by omega)]
      simp only [Option.some.injEq]
      omega
    · rw [if_neg hj1, if_neg (by omega), hshift j]
      exact entrySpec_final K n j (by omega)

/-- The threaded last-error accumulator in terms of List.getLast?. -/
theorem lastErrAfter_getLast? (l : List String) :
    ∀ le : Option String, lastErrAfter le l =
      match l.getLast? with
      | some e => some e
      | none => le := by
  induction l with
  | nil => intro le; rfl
  | cons e l ih =>
    intro le
    rw [show lastErrAfter le (e :: l) = lastErrAfter (some e) l from rfl, ih (some e)]
    cases l with
    | nil => simp
    | cons x xs =>
      rw [List.getLast?_cons_cons]
      cases h : (x :: xs).getLast? with
      | some y => simp
      | none => simp at h

/-- Starting from no error, the last-seen error is the last of the list. -/
theorem lastErrAfter_none (l : List String) : lastErrAfter none l = l.getLast? := by
  rw [lastErrAfter_getLast?]
  cases h : l.getLast? <;> simp

/-- Characterization of the MultiHandler loop with arbitrary accumulators. -/
theorem multiHandleLoop_spec (eh : Bool) (r : Record) (cs : List (Record → Option String)) :
    ∀ (le : Option String) (inputs : List Record) (cbs : List String),
      multiHandleLoop eh r le inputs cbs cs =
        (lastErrAfter le (cs.filterMap (fun c => c (recordClone r))),
         inputs ++ cs.map (fun _ => recordClone r),
         cbs ++ (if eh then cs.filterMap (fun c => c (recordClone r)) else [])) := by
  induction cs with
  | nil =>
    intro le inputs cbs
    simp [multiHandleLoop, lastErrAfter]
  | cons c cs ih =>
    intro le inputs cbs
    simp only [multiHandleLoop]
    cases hc : c (recordClone r) with
    | some e =>
      simp only [ih, List.filterMap_cons, List.map_cons, hc, lastErrAfter]
      cases eh <;> simp
    | none =>
      simp only [ih, List.filterMap_cons, List.map_cons, hc]
      cases eh <;> simp

/-- A leaf sink is a sink handler. -/
theorem isLeafSink_isSinkHandler {t : HTree} (h : isLeafSink t = true) :
    isSinkHandler t = true := by
  cases t <;> simp [isLeafSink, isSinkHandler] at h ⊢

/-- A leaf sink has only leaf leaves. -/
theorem isLeafSink_sinkLeavesOnly {t : HTree} (h : isLeafSink t = true) :
    sinkLeavesOnly t = true := by
  cases t <;> simp [isLeafSink, sinkLeavesOnly] at h ⊢

/-! ## Claim theorems -/

/-- C1: for every configured minimum level L and record level R, the base
handler emits output iff R ≥ L under debug < info < warn < error: a record
below the minimum returns success with zero writes to the sink, and an
enabled record issues exactly one write, of the formatted line. -/
theorem C1_base_level_gating (h : BaseHandler) (caller : Option String) (r : Record) :
    (baseEnabled h r.level = true ↔ h.opts.level ≤ r.level) ∧
    baseHandle h caller r =
      (if h.opts.level ≤ r.level then ([formatLine h caller r], none) else ([], none)) ∧
    LevelDebug < LevelInfo ∧ LevelInfo < LevelWarn ∧ LevelWarn < LevelError := by
  refine ⟨by simp [baseEnabled], ?_, by decide, by decide, by decide⟩
  by_cases hl : h.opts.level ≤ r.level
  · rw [if_pos hl]
    simp [baseHandle, baseEnabled, hl]
  · rw [if_neg hl]
    simp [baseHandle, baseEnabled, hl]

/-- C6 (code bug): FileOptions with Interval = 0 pass validation, yet the
rotation worker — the only goroutine that ever closes doneChan — is not
started, so Close blocks forever on `<-doneChan` instead of terminating. -/
theorem C6_close_blocks_with_interval_zero :
    validateFileOptions
        { path := "app.log", maxSize := 0, maxAge := 0, maxBackups := 0, interval := 0 } =
      .ok { path := "app.log", maxSize := 104857600, maxAge := 7, maxBackups := 5, interval := 0 } ∧
    rotationWorkerStarted
        { path := "app.log", maxSize := 104857600, maxAge := 7, maxBackups := 5, interval := 0 } = false ∧
    closeTerminates
        { path := "app.log", maxSize := 104857600, maxAge := 7, maxBackups := 5, interval := 0 } = false := by
  exact ⟨rfl, rfl, rfl⟩

/-- C7 counterexample: deriving a view with WithAttrs and writing 5 bytes
through it leaves the size counter of the original handler at 0 while the
counter of the derived view reads 5 — the size counter is per-view, not a single
shared counter as the claim states. -/
theorem C7_size_counter_not_shared :
    heapGet (fileWriteSize (fileWithAttrs demoHeap 31 demoView).1
        (fileWithAttrs demoHeap 31 demoView).2 5) demoView.sizeRef = 0 ∧
    heapGet (fileWriteSize (fileWithAttrs demoHeap 31 demoView).1
        (fileWithAttrs demoHeap 31 demoView).2 5)
      (fileWithAttrs demoHeap 31 demoView).2.sizeRef = 5 ∧
    (0 : Int) ≠ 5 := by
  exact ⟨by decide, by decide, by decide⟩

/-- C7 amended: WithAttrs and WithGroup return a new File Handler view
sharing the same file descriptor and the same stop/done channels, but the
size counter is copied by value into a cell owned by the new view (and the
mutex is fresh): a write through the derived view leaves the size counter
of the original view unchanged. -/
theorem C7_view_sharing (hp : List (Nat × Int)) (fresh : Nat) (h : FileView) (n : Int)
    (hfresh : h.sizeRef ≠ fresh) :
    (fileWithAttrs hp fresh h).2.fileRef = h.fileRef ∧
    (fileWithAttrs hp fresh h).2.stopRef = h.stopRef ∧
    (fileWithAttrs hp fresh h).2.doneRef = h.doneRef ∧
    (fileWithAttrs hp fresh h).2.sizeRef = fresh ∧
    heapGet (fileWithAttrs hp fresh h).1 fresh = heapGet hp h.sizeRef ∧
    heapGet (fileWriteSize (fileWithAttrs hp fresh h).1 (fileWithAttrs hp fresh h).2 n)
        h.sizeRef = heapGet hp h.sizeRef ∧
    (fileWithGroup hp fresh h "g").1 = (fileWithAttrs hp fresh h).1 ∧
    (fileWithGroup hp fresh h "g").2 = .newInstance (fileWithAttrs hp fresh h).2 := by
  have h2 : fresh ≠ h.sizeRef := Ne.symm hfresh
  refine ⟨rfl, rfl, rfl, rfl, ?_, ?_, rfl, rfl⟩
  · simp [fileWithAttrs, heapGet_heapSet]
  · simp [fileWithAttrs, fileWriteSize, heapGet_heapSet, h2]

/-- C7 witness: the amended sharing statement at the concrete demo view. -/
theorem C7_view_sharing_witness :
    demoView.sizeRef ≠ 31 ∧
    heapGet (fileWriteSize (fileWithAttrs demoHeap 31 demoView).1
        (fileWithAttrs demoHeap 31 demoView).2 5) demoView.sizeRef =
      heapGet demoHeap demoView.sizeRef :=
  ⟨by decide, (C7_view_sharing demoHeap 31 demoView 5 (by decide)).2.2.2.2.2.1⟩

/-- C9 (code bug): the slog.Handler contract and the spec make WithGroup
with the empty name return the receiver.  Only the base handler does; the
file, multi, sampling, context, metrics and tracing handlers all allocate a
new wrapper instance even when the group name is empty. -/
theorem C9_withGroup_empty_name :
    baseWithGroup (newBaseHandler newOptions) "" = .receiver ∧
    (fileWithGroup demoHeap 31 demoView "").2 =
      .newInstance { fileRef := 10, stopRef := 20, doneRef := 21, sizeRef := 31 } ∧
    multiWithGroup (fun (c : Nat) (_ : String) => c) [0, 1] "" = .newInstance [0, 1] ∧
    samplingWithGroup (fun (c : Nat) (_ : String) => c) (newSamplingHandler 1000000000 5) 0 "" =
      .newInstance (newSamplingHandler 1000000000 5, 0) ∧
    contextWithGroup (fun (c : Nat) (_ : String) => c) 0 "" = .newInstance 0 ∧
    metricsWithGroup (fun (c : Nat) (_ : String) => c) 0 "" = .newInstance 0 ∧
    tracingWithGroup (fun (c : Nat) (_ : String) => c) 0 "" = .newInstance 0 := by
  exact ⟨rfl, rfl, rfl, rfl, rfl, rfl, rfl⟩

/-- C10 counterexample: releasing a zero-capacity buffer pools it (its
capacity does not exceed maxSize and the counter is below the limit), and
the next acquire returns it — so Get does not always return a buffer of
non-zero capacity. -/
theorem C10_get_zero_capacity :
    (poolGet (poolPut (newPool 65536 1000) (some { capacity := 0, length := 0 }))).2.capacity
      = 0 ∧
    ¬ 0 <
      (poolGet (poolPut (newPool 65536 1000)
        (some { capacity := 0, length := 0 }))).2.capacity := by
  exact ⟨by decide, by decide⟩

/-- C10 amended: Get never blocks and always returns a zero-length buffer —
freshly allocated with capacity 4096 when the pool is empty, otherwise the
most recently pooled buffer with its capacity preserved; Put ignores nil,
discards (without pooling, decrementing the counter) any buffer whose
capacity exceeds maxSize and any buffer arriving while the counter exceeds
maxBuffers, and otherwise resets the length to zero and pools the buffer;
every branch returns normally to the caller. -/
theorem C10_pool_contract (p : PoolState) (b : Buf) :
    (poolGet p).2.length = 0 ∧
    (p.items = [] → (poolGet p).2 = { capacity := 4096, length := 0 } ∧
      (poolGet p).1 = { p with total := p.total + 1 }) ∧
    (∀ b2 rest, p.items = b2 :: rest →
      (poolGet p).2 = { capacity := b2.capacity, length := 0 } ∧
      (poolGet p).1 = { p with items := rest, total := p.total + 1 }) ∧
    poolPut p none = p ∧
    (p.maxSize < (b.capacity : Int) →
      poolPut p (some b) = { p with total := p.total - 1 }) ∧
    (¬ p.maxSize < (b.capacity : Int) → p.maxBuffers < p.total →
      poolPut p (some b) = { p with total := p.total - 1 }) ∧
    (¬ p.maxSize < (b.capacity : Int) → ¬ p.maxBuffers < p.total →
      poolPut p (some b) =
        { p with items := { capacity := b.capacity, length := 0 } :: p.items }) := by
  refine ⟨?_, ?_, ?_, rfl, ?_, ?_, ?_⟩
  · cases hi : p.items with
    | nil => simp [poolGet, hi]
    | cons b2 rest => simp [poolGet, hi]
  · intro hi
    simp [poolGet, hi]
  · intro b2 rest hi
    simp [poolGet, hi]
  · intro hcap
    simp [poolPut, hcap]
  · intro hcap htot
    simp [poolPut, hcap, htot]
  · intro hcap htot
    simp [poolPut, hcap, htot]

/-- C10 witness: an oversized buffer released to a fresh small pool is
discarded, not pooled, and the call returns normally. -/
theorem C10_pool_contract_witness :
    (newPool 64 1).maxSize < ((100 : Nat) : Int) ∧
    poolPut (newPool 64 1) (some { capacity := 100, length := 3 }) =
      { newPool 64 1 with total := (newPool 64 1).total - 1 } :=
  ⟨by decide, (C10_pool_contract (newPool 64 1) { capacity := 100, length := 3 }).2.2.2.2.1
    (by decide)⟩

/-- C3: with a validated byte threshold S = maxSize, a write that pushes
the cumulative size past S triggers exactly one rotation in the same Handle
call — before the next write — resetting the size counter to zero, so the
counter after the next write equals the size of that write and no further
rotation has happened. -/
theorem C3_rotation_size_trigger (opts : FileOptions) (st : FileState) (n m now : Int)
    (hpos : 0 < opts.maxSize) (hint : opts.interval ≤ 0)
    (hexceed : opts.maxSize < st.size + n)
    (_hm0 : 0 ≤ m) (hm : m < opts.maxSize) :
    (handleWrite opts st n now).rotations = st.rotations + 1 ∧
    (handleWrite opts st n now).size = 0 ∧
    (handleWrite opts (handleWrite opts st n now) m now).size = m ∧
    (handleWrite opts (handleWrite opts st n now) m now).rotations = st.rotations + 1 := by
  obtain ⟨fs0, size0, lr0, gen0, rot0⟩ := st
  have hsr1 : shouldRotate opts ⟨fs0, size0 + n, lr0, gen0, rot0⟩ now = true := by
    simp only [shouldRotate, Bool.or_eq_true, Bool.and_eq_true, decide_eq_true_eq]
    exact Or.inl ⟨hpos, by simp at hexceed ⊢; omega⟩
  have hw1 : handleWrite opts ⟨fs0, size0, lr0, gen0, rot0⟩ n now =
      ⟨fsSet (rotateFiles opts ⟨fs0, size0 + n, lr0, gen0, rot0⟩ now) 0 gen0,
        0, now, gen0 + 1, rot0 + 1⟩ := by
    simp only [handleWrite, hsr1, if_true, rotate]
  have hsr2 : ∀ (fs1 : List (Nat × Nat)) (g1 r1 : Nat),
      shouldRotate opts ⟨fs1, 0 + m, now, g1, r1⟩ now = false := by
    intro fs1 g1 r1
    simp only [shouldRotate]
    have e1 : decide (opts.maxSize ≤ 0 + m) = false := decide_eq_false (by omega)
    have e2 : decide (0 < opts.interval) = false := decide_eq_false (by omega)
    rw [e1, e2]
    simp
  rw [hw1]
  have hw2 : handleWrite opts
      (⟨fsSet (rotateFiles opts ⟨fs0, size0 + n, lr0, gen0, rot0⟩ now) 0 gen0,
        0, now, gen0 + 1, rot0 + 1⟩ : FileState) m now =
      ⟨fsSet (rotateFiles opts ⟨fs0, size0 + n, lr0, gen0, rot0⟩ now) 0 gen0,
        0 + m, now, gen0 + 1, rot0 + 1⟩ := by
    simp only [handleWrite, hsr2]
    simp
  rw [hw2]
  refine ⟨rfl, rfl, by simp, rfl⟩

/-- C3 witness: the rotation trigger at the concrete 1MB options. -/
theorem C3_rotation_size_trigger_witness :
    (handleWrite fileOptsDemo fileStDemo 10 0).rotations = fileStDemo.rotations + 1 ∧
    (handleWrite fileOptsDemo fileStDemo 10 0).size = 0 ∧
    (handleWrite fileOptsDemo (handleWrite fileOptsDemo fileStDemo 10 0) 3 0).size = 3 ∧
    (handleWrite fileOptsDemo (handleWrite fileOptsDemo fileStDemo 10 0) 3 0).rotations =
      fileStDemo.rotations + 1 :=
  C3_rotation_size_trigger fileOptsDemo fileStDemo 10 3 0 (by decide) (by decide)
    (by decide) (by decide) (by decide)

/-- C2: MultiHandler.Handle invokes every child exactly once, each with an
independent structural copy of the record (so a mutation by one child cannot
reach another), never short-circuits on a child error, hands every child
error to the optional error callback, and returns the last-seen child error
(success when all children succeed). -/
theorem C2_multi_fanout (children : List (Record → Option String)) (eh : Bool) (r : Record) :
    multiHandle children eh r =
      ((children.filterMap (fun c => c (recordClone r))).getLast?,
       children.map (fun _ => recordClone r),
       if eh then children.filterMap (fun c => c (recordClone r)) else []) ∧
    recordClone r = r := by
  refine ⟨?_, rfl⟩
  rw [multiHandle, multiHandleLoop_spec, lastErrAfter_none]
  simp

/-- The final assembly step of Build: folding a non-empty list of leaf sinks
into the wrapped chain yields the documented nesting. -/
theorem build_assemble_spec (o : Options) (hs : List HTree) (t : HTree)
    (hall : ∀ x ∈ hs, isLeafSink x = true)
    (h : (match hs with
          | [] => (Except.error "no handlers" : Except String HTree)
          | h0 :: rest =>
            Except.ok (HTree.ctx
              (wrapIf o.tracingEnabled HTree.tracing
                (wrapIf o.metricsEnabled HTree.metrics
                  (wrapIf o.samplingEnabled
                    (HTree.sampling o.sampleInterval ((o.sampleRate % (2 ^ 32 : Int)).toNat))
                    (if rest.isEmpty then h0 else HTree.multi (h0 :: rest))))))) = .ok t) :
    ∃ sink : HTree, isSinkHandler sink = true ∧ sinkLeavesOnly sink = true ∧
      t = HTree.ctx
        (wrapIf o.tracingEnabled HTree.tracing
          (wrapIf o.metricsEnabled HTree.metrics
            (wrapIf o.samplingEnabled
              (HTree.sampling o.sampleInterval ((o.sampleRate % (2 ^ 32 : Int)).toNat))
              sink))) := by
  cases hs with
  | nil => exact absurd h (by simp)
  | cons h0 rest =>
    injection h with h
    subst h
    refine ⟨if rest.isEmpty then h0 else HTree.multi (h0 :: rest), ?_, ?_, rfl⟩
    · by_cases hrest : rest.isEmpty
      · rw [if_pos hrest]
        exact isLeafSink_isSinkHandler (hall h0 (List.mem_cons_self _ _))
      · rw [if_neg hrest]
        rfl
    · by_cases hrest : rest.isEmpty
      · rw [if_pos hrest]
        exact isLeafSink_sinkLeavesOnly (hall h0 (List.mem_cons_self _ _))
      · rw [if_neg hrest]
        simp only [sinkLeavesOnly, List.all_eq_true]
        exact fun x hx => hall x hx

/-- C8: for every builder whose Build succeeds, the produced chain is the
context handler outermost, then — inside it and in this order — tracing,
metrics and sampling exactly when enabled, around an innermost sink that is
a base, file or multi handler whose children are all base/file leaves. -/
theorem C8_build_order (b : Builder) (t : HTree) (h : build b = .ok t) :
    ∃ sink : HTree, isSinkHandler sink = true ∧ sinkLeavesOnly sink = true ∧
      t = HTree.ctx
        (wrapIf b.options.tracingEnabled HTree.tracing
          (wrapIf b.options.metricsEnabled HTree.metrics
            (wrapIf b.options.samplingEnabled
              (HTree.sampling b.options.sampleInterval
                ((b.options.sampleRate % (2 ^ 32 : Int)).toNat))
              sink))) := by
  unfold build at h
  split at h
  · exact absurd h (by simp)
  · split at h
    · -- file output enabled
      split at h
      · exact absurd h (by simp)
      · rename_i fo heqv
        refine build_assemble_spec b.options
          (b.writers.map (fun w => HTree.base w b.options) ++ [HTree.file fo]) t ?_ h
        intro x hx
        rcases List.mem_append.mp hx with hx1 | hx2
        · obtain ⟨w, _, rfl⟩ := List.mem_map.mp hx1
          rfl
        · simp only [List.mem_singleton] at hx2
          subst hx2
          rfl
    · -- file output disabled
      refine build_assemble_spec b.options
        (b.writers.map (fun w => HTree.base w b.options) ++ []) t ?_ h
      intro x hx
      rcases List.mem_append.mp hx with hx1 | hx2
      · obtain ⟨w, _, rfl⟩ := List.mem_map.mp hx1
        rfl
      · simp at hx2

/-- C8 witness: the default builder (one stdout writer, no optional layers)
builds the context handler directly around a single base sink. -/
theorem C8_build_order_witness :
    ∃ sink : HTree, isSinkHandler sink = true ∧ sinkLeavesOnly sink = true ∧
      HTree.ctx (HTree.base 0 newOptions) = HTree.ctx
        (wrapIf newBuilder.options.tracingEnabled HTree.tracing
          (wrapIf newBuilder.options.metricsEnabled HTree.metrics
            (wrapIf newBuilder.options.samplingEnabled
              (HTree.sampling newBuilder.options.sampleInterval
                ((newBuilder.options.sampleRate % (2 ^ 32 : Int)).toNat))
              sink))) :=
  C8_build_order newBuilder (HTree.ctx (HTree.base 0 newOptions)) rfl

/-- One sampling step on a below-error record with the canonical counter
state after n prior occurrences of the same record: no cleanup fires, the
counter reads n and is bumped to n+1, and the record is emitted (annotated)
iff n is below the threshold or an exact multiple of the rate. -/
theorem samplingHandle_step (T R : Nat) (p t0 now : Int) (r : Record) (n : Nat)
    (hR : 0 < R) (hlvl : r.level < LevelError) (hcw : now - t0 < p)
    (hn1 : n + 1 < 2 ^ 32) :
    samplingHandle ⟨p, R, T, (if n = 0 then [] else [(hashRecord r, n)]), t0⟩ now r =
      some (⟨p, R, T, [(hashRecord r, n + 1)], t0⟩,
        if n < T ∨ n % R = 0 then some (emitWithMeta r n R) else none) := by
  have hkey : ctrGet (if n = 0 then [] else [(hashRecord r, n)]) (hashRecord r) = n := by
    by_cases h0 : n = 0 <;> simp [h0, ctrGet]
  have hcln : cleanupIfNeeded ⟨p, R, T, (if n = 0 then [] else [(hashRecord r, n)]), t0⟩ now =
      ⟨p, R, T, (if n = 0 then [] else [(hashRecord r, n)]), t0⟩ := by
    simp only [cleanupIfNeeded]
    rw [if_neg (show ¬ (p ≤ now - t0) by omega)]
  have hmod : (n + 1) % 2 ^ 32 = n + 1 := Nat.mod_eq_of_lt hn1
  have hset : ctrSet (if n = 0 then [] else [(hashRecord r, n)]) (hashRecord r)
      ((n + 1) % 2 ^ 32) = [(hashRecord r, n + 1)] := by
    rw [hmod]
    by_cases h0 : n = 0 <;> simp [h0, ctrSet]
  have hlvl8 : ¬ LevelError ≤ r.level := by
    have h2 := hlvl
    simp only [LevelError] at h2 ⊢
    omega
  simp only [samplingHandle, hcln, hkey, hset]
  rw [if_neg hlvl8]
  by_cases hT : n < T
  · rw [if_pos hT, if_pos (Or.inl hT)]
  · rw [if_neg hT, if_neg (by omega)]
    by_cases hm : n % R = 0
    · rw [if_pos hm, if_pos (Or.inr hm)]
    · rw [if_neg hm, if_neg (by push_neg; exact ⟨by omega, hm⟩)]

/-- Running n identical below-error records through a fresh sampling state:
the counter for the key ends at n and the emissions are exactly the occurrences
whose pre-increment count was below the threshold or a multiple of the
rate, annotated with the observed count and the rate. -/
theorem samplingRun_spec (T R : Nat) (p t0 now : Int) (r : Record)
    (hR : 0 < R) (hlvl : r.level < LevelError) (hcw : now - t0 < p) :
    ∀ n : Nat, n < 2 ^ 32 →
      samplingRun ⟨p, R, T, [], t0⟩ now r n =
        some (⟨p, R, T, (if n = 0 then [] else [(hashRecord r, n)]), t0⟩,
          (List.range n).filterMap (fun i =>
            if i < T ∨ i % R = 0 then some (i + 1, emitWithMeta r i R) else none)) := by
  intro n
  induction n with
  | zero => intro _; simp [samplingRun]
  | succ n ih =>
    intro hn
    have ihn := ih (by omega)
    simp only [samplingRun]
    rw [ihn]
    simp only [Option.bind_eq_bind, Option.some_bind]
    rw [samplingHandle_step T R p t0 now r n hR hlvl hcw (by omega)]
    simp only [Option.some_bind, List.range_succ, List.filterMap_append]
    by_cases hcond : n < T ∨ n % R = 0
    · rw [if_pos hcond]
      simp [hcond]
    · rw [if_neg hcond]
      simp [hcond]

/-- C5 counterexample: with threshold 1 and rate 5, seven identical
info-level records produce emissions at occurrences 1 and 6 — not at
occurrences 1 and 5 as the scenario in the claim states (the counter is compared
before its increment, so the rate gate reopens at occurrence R+1). -/
theorem C5_sampling_scenario_counterexample :
    (samplingRun ⟨1000000000, 5, 1, [], 0⟩ 0
        { time := "t", level := 0, message := "m", attrs := [] } 7).map
      (fun p => p.2.map Prod.fst) = some [1, 6] ∧
    some [1, 6] ≠ some [1, 5] := by
  exact ⟨by decide, by decide⟩

/-- C5 amended: for a fixed key with threshold T and rate R > 0, the k-th
occurrence (pre-increment count n = k-1) of a below-error record is emitted
iff n < T or n ≡ 0 mod R — i.e. occurrences 1..T and then R+1, 2R+1, … —
annotated with the observed count and the rate; all other occurrences are
dropped returning success; error-level records are always forwarded
untouched regardless of counter state.  In particular threshold=1, rate=5
emits the 7-record scenario at occurrences 1 and 6 only. -/
theorem C5_sampling_threshold_rule (T R : Nat) (p t0 now : Int) (r : Record) (n : Nat)
    (hR : 0 < R) (hlvl : r.level < LevelError) (hcw : now - t0 < p) (hn : n < 2 ^ 32) :
    samplingRun ⟨p, R, T, [], t0⟩ now r n =
      some (⟨p, R, T, (if n = 0 then [] else [(hashRecord r, n)]), t0⟩,
        (List.range n).filterMap (fun i =>
          if i < T ∨ i % R = 0 then some (i + 1, emitWithMeta r i R) else none)) ∧
    (∀ (st : SamplingState) (r2 : Record), LevelError ≤ r2.level →
      samplingHandle st now r2 = some (st, some r2)) :=
  ⟨samplingRun_spec T R p t0 now r hR hlvl hcw n hn,
   fun st r2 h2 => by simp [samplingHandle, h2]⟩

/-- C5 witness: the amended rule at threshold 1, rate 5, seven occurrences. -/
theorem C5_sampling_threshold_rule_witness :
    samplingRun ⟨1000000000, 5, 1, [], 0⟩ 0
        { time := "t", level := 0, message := "m", attrs := [] } 7 =
      some (⟨1000000000, 5, 1,
          (if 7 = 0 then []
           else [(hashRecord { time := "t", level := 0, message := "m", attrs := [] }, 7)]), 0⟩,
        (List.range 7).filterMap (fun i =>
          if i < 1 ∨ i % 5 = 0 then
            some (i + 1, emitWithMeta { time := "t", level := 0, message := "m", attrs := [] } i 5)
          else none)) :=
  (C5_sampling_threshold_rule 1 5 1000000000 0 0
    { time := "t", level := 0, message := "m", attrs := [] } 7
    (by decide) (by decide) (by decide) (by decide)).1

/-- C4: starting with no backups, after N write-triggered rotations with
maxBackups = K the filesystem is exactly canonical: the active file holds
generation N and backup j exists iff 1 ≤ j ≤ min N K, holding generation
N - j — so exactly min(N, K) backups numbered 1..min(N,K) with backup 1 the
most recent (the file active just before the last rotation). -/
theorem C4_backup_bound (opts : FileOptions) (K N : Nat) (now : Int)
    (hK : opts.maxBackups = (K : Int)) (hK1 : 1 ≤ K) (hS : 0 < opts.maxSize) :
    (∀ j, fsGet (writeRotateN opts now initFileState N).fs j = canonGet K N j) ∧
    (∀ j, 1 ≤ j →
      ((fsGet (writeRotateN opts now initFileState N).fs j).isSome ↔ j ≤ min N K)) ∧
    (writeRotateN opts now initFileState N).rotations = N := by
  suffices h : ∀ (M : Nat) (st : FileState) (n : Nat), st.size = 0 → st.gen = n + 1 →
      st.rotations = n → (∀ j, fsGet st.fs j = canonGet K n j) →
      (∀ j, fsGet (writeRotateN opts now st M).fs j = canonGet K (n + M) j) ∧
      (writeRotateN opts now st M).rotations = n + M by
    have h0 : ∀ j, fsGet initFileState.fs j = canonGet K 0 j := by
      intro j
      by_cases hj : 0 = j
      · rw [← hj]
        rfl
      · show fsGet [(0, 0)] j = canonGet K 0 j
        simp only [fsGet, canonGet, origB]
        rw [if_neg hj, if_neg (fun hh => hj hh.symm), if_neg (by omega)]
    obtain ⟨hA, hB⟩ := h N initFileState 0 rfl rfl rfl h0
    have hA2 : ∀ j, fsGet (writeRotateN opts now initFileState N).fs j = canonGet K N j := by
      simpa using hA
    refine ⟨hA2, ?_, by simpa using hB⟩
    intro j hj
    rw [hA2 j]
    simp only [canonGet, origB]
    rw [if_neg (by omega)]
    split_ifs with hcond
    · simp only [Option.isSome_some, true_iff]
      exact hcond.2
    · simp only [Option.isSome_none, Bool.false_eq_true, false_iff]
      exact fun hc => hcond ⟨hj, hc⟩
  intro M
  induction M with
  | zero =>
    intro st n hsize hgen hrot hfs
    exact ⟨fun j => by simpa using hfs j, by simpa using hrot⟩
  | succ M ih =>
    intro st n hsize hgen hrot hfs
    have hsr : shouldRotate opts { st with size := st.size + opts.maxSize } now = true := by
      simp only [shouldRotate, Bool.or_eq_true, Bool.and_eq_true, decide_eq_true_eq]
      left
      refine ⟨hS, ?_⟩
      show opts.maxSize ≤ st.size + opts.maxSize
      omega
    have hstep := rotate_canon opts { st with size := st.size + opts.maxSize } now K n hK hK1
      hsr (fun j => by show fsGet st.fs j = _; exact hfs j) (by show st.gen = n + 1; exact hgen)
    have hw : handleWrite opts st opts.maxSize now =
        rotate opts { st with size := st.size + opts.maxSize } now := by
      simp only [handleWrite, hsr]
      simp
    rw [show writeRotateN opts now st (M + 1) =
        writeRotateN opts now (handleWrite opts st opts.maxSize now) M from rfl, hw]
    have hrot2 : (rotate opts { st with size := st.size + opts.maxSize } now).rotations
        = n + 1 := by
      rw [hstep.2.2.2]
      show st.rotations + 1 = n + 1
      omega
    obtain ⟨ha, hb⟩ := ih (rotate opts { st with size := st.size + opts.maxSize } now) (n + 1)
      hstep.2.1 hstep.2.2.1 hrot2 hstep.1
    have heq : n + 1 + M = n + (M + 1) := by omega
    rw [heq] at ha hb
    exact ⟨ha, hb⟩

/-- C4 witness: five rotations with three backups at concrete options. -/
theorem C4_backup_bound_witness :
    fsGet (writeRotateN ⟨"app.log", 100, 7, 3, 0⟩ 0 initFileState 5).fs 1 = canonGet 3 5 1 ∧
    (writeRotateN ⟨"app.log", 100, 7, 3, 0⟩ 0 initFileState 5).rotations = 5 := by
  have h := C4_backup_bound ⟨"app.log", 100, 7, 3, 0⟩ 3 5 0 (by decide) (by decide) (by decide)
  exact ⟨h.1 1, h.2.2⟩

end Logger
